import Mathlib

/-!
Verification of the alacritheme theme picker (src/main.go) against its
natural-language specification.

The program is shallowly embedded: the TOML configuration document is an
inductive value type over association lists (modelling the Go
`map[string]interface{}` produced by the external go-toml library), file
contents are `String`s, the filesystem state relevant to each operation is
passed explicitly, and the bubbletea model struct becomes a Lean structure
with the event handlers as pure functions from model and message to model,
emitted commands and a quit flag.
-/

set_option linter.unusedVariables false
set_option maxRecDepth 20000

/-- A TOML value as produced by go-toml's `Unmarshal` into
`map[string]interface{}`: strings, booleans, integers, arrays and nested
tables.  Tables are association lists of key/value pairs. -/
inductive TomlValue where
  | str : String → TomlValue
  | bool : Bool → TomlValue
  | int : Int → TomlValue
  | arr : List TomlValue → TomlValue
  | table : List (String × TomlValue) → TomlValue

/-- A parsed TOML document: the top-level `map[string]interface{}`. -/
abbrev TomlDoc := List (String × TomlValue)

/-- Reading `config[k]` from the Go map: the value bound to the first
occurrence of `k`, if any. -/
def lookupKey : TomlDoc → String → Option TomlValue
  | [], _ => none
  | (k', v') :: rest, k => if k' = k then some v' else lookupKey rest k

/-- Writing `config[k] = v` on the Go map: replace the binding of `k` in
place if present, otherwise append a new binding. -/
def insertKey : TomlDoc → String → TomlValue → TomlDoc
  | [], k, v => [(k, v)]
  | (k', v') :: rest, k, v =>
    if k' = k then (k, v) :: rest else (k', v') :: insertKey rest k v

/-- Whether a TOML value is a table, i.e. whether the Go type assertion
`config["general"].(map[string]interface{})` succeeds on it. -/
def isTableVal : TomlValue → Bool
  | .table _ => true
  | _ => false

/-- The pure document transformation at the heart of `updateConfig`
(src/main.go lines 300-310): if the top-level key `general` holds a table,
set `live_config_reload = true` and `import = [selectedPath]` inside that
table (the Go code mutates the nested map in place, which is re-binding the
updated table under `general`); otherwise set the same two keys at the top
level. -/
def updateConfigDoc (config : TomlDoc) (selectedPath : String) : TomlDoc :=
  match lookupKey config "general" with
  | some (TomlValue.table general) =>
    insertKey config "general" (TomlValue.table
      (insertKey (insertKey general "live_config_reload" (TomlValue.bool true))
        "import" (TomlValue.arr [TomlValue.str selectedPath])))
  | _ =>
    insertKey (insertKey config "live_config_reload" (TomlValue.bool true))
      "import" (TomlValue.arr [TomlValue.str selectedPath])

/-- The import list the patcher manages: the `import` key inside `general`
when `general` is a table (the location `updateConfig` writes to in that
case), and the top-level `import` key otherwise. -/
def importValue (config : TomlDoc) : Option TomlValue :=
  match lookupKey config "general" with
  | some (TomlValue.table general) => lookupKey general "import"
  | _ => lookupKey config "import"

/-- A blank-padding string of the given length. -/
def spaces (n : Nat) : String := String.mk (List.replicate n ' ')

/-- Structural splitting of a character list on a separator character.
The kernel-reducible counterpart of `String.splitOn` for the
single-character separators this embedding needs. -/
def splitOnChar (c : Char) : List Char → List (List Char)
  | [] => [[]]
  | x :: rest =>
    match splitOnChar c rest with
    | [] => [[x]]
    | h :: t => if x = c then [] :: h :: t else (x :: h) :: t

/-- `String.splitOn` for a single-character separator. -/
def strSplitOnChar (c : Char) (s : String) : List String :=
  (splitOnChar c s.data).map String.mk

/-- Leading and trailing whitespace stripped from a character list. -/
def trimChars (l : List Char) : List Char :=
  ((l.dropWhile Char.isWhitespace).reverse.dropWhile Char.isWhitespace).reverse

/-- `String.trim`, written structurally. -/
def strTrim (s : String) : String := String.mk (trimChars s.data)

/-- `strings.HasPrefix` / `String.startsWith`, written structurally. -/
def strStartsWith (s pre : String) : Bool := pre.data.isPrefixOf s.data

/-- `strings.HasSuffix` / `String.endsWith`, written structurally. -/
def strEndsWith (s suf : String) : Bool := suf.data.isSuffixOf s.data

/-- Decimal digits to a number; `none` when empty or not all digits.  The
kernel-reducible counterpart of `String.toNat?`. -/
def digitsToNat? (l : List Char) : Option Nat :=
  if l.isEmpty then none
  else if l.all Char.isDigit then
    some (l.foldl (fun acc c => acc * 10 + (c.toNat - 48)) 0)
  else none

/-- `String.toNat?`, written structurally. -/
def strToNat? (s : String) : Option Nat := digitsToNat? s.data

/-- `String.intercalate`, written structurally. -/
def strIntercalate (sep : String) : List String → String
  | [] => ""
  | [x] => x
  | x :: y :: rest => x ++ sep ++ strIntercalate sep (y :: rest)

/-- Models go-toml parsing of a basic quoted string (escape sequences are
outside the subset this program's documents use). -/
def parseBasicString (s : String) : Option String :=
  if strStartsWith s "\"" ∧ strEndsWith s "\"" ∧ 2 ≤ s.length then
    some ((s.drop 1).dropRight 1)
  else none

/-- Models go-toml parsing of a scalar TOML value: booleans, basic strings
and integers. -/
def parseScalar (s : String) : Option TomlValue :=
  if s = "true" then some (TomlValue.bool true)
  else if s = "false" then some (TomlValue.bool false)
  else
    match parseBasicString s with
    | some str => some (TomlValue.str str)
    | none =>
      if strStartsWith s "-" then
        (strToNat? (s.drop 1)).map (fun n => TomlValue.int (-(n : Int)))
      else (strToNat? s).map (fun n => TomlValue.int (n : Int))

/-- Models go-toml parsing of a value: a scalar or an array of scalars. -/
def parseValue (s : String) : Option TomlValue :=
  if strStartsWith s "[" ∧ strEndsWith s "]" ∧ 2 ≤ s.length then
    let inner := strTrim ((s.drop 1).dropRight 1)
    if inner = "" then some (TomlValue.arr [])
    else ((strSplitOnChar ',' inner).map strTrim |>.mapM parseScalar).map
      TomlValue.arr
  else parseScalar s

/-- Binding `key = v` under a dotted table path, creating intermediate
tables as needed (as go-toml does while decoding `[a.b]` sections). -/
def setPath (d : TomlDoc) : List String → String → TomlValue → TomlDoc
  | [], k, v => insertKey d k v
  | p :: rest, k, v =>
    let sub : TomlDoc :=
      match lookupKey d p with
      | some (TomlValue.table t) => t
      | _ => []
    insertKey d p (TomlValue.table (setPath sub rest k v))

/-- Intermediate state of the line-by-line TOML reader: the document built
so far and the table path opened by the last `[section]` header. -/
structure TomlReaderState where
  doc : TomlDoc
  path : List String

/-- One line of TOML input: blank lines and `#` comments are skipped,
`[a.b]` opens a table path, `key = value` binds under the open path, and
anything else is a parse error. -/
def parseTomlLine (st : Except String TomlReaderState) (rawLine : String) :
    Except String TomlReaderState := do
  let st ← st
  let line := strTrim rawLine
  if line = "" ∨ strStartsWith line "#" then pure st
  else if strStartsWith line "[" then
    if strEndsWith line "]" ∧ 2 ≤ line.length then
      let name := strTrim ((line.drop 1).dropRight 1)
      if name = "" then throw ("invalid table header: " ++ line)
      else pure { st with path := strSplitOnChar '.' name }
    else throw ("invalid table header: " ++ line)
  else
    match strSplitOnChar '=' line with
    | [] => throw ("invalid line: " ++ line)
    | [_] => throw ("invalid line: " ++ line)
    | k :: rest =>
      let key := strTrim k
      let valueStr := strTrim (strIntercalate "=" rest)
      if key = "" then throw ("invalid line: " ++ line)
      else
        match parseValue valueStr with
        | some v => pure { st with doc := setPath st.doc st.path key v }
        | none => throw ("invalid value: " ++ valueStr)

/-- Models `toml.Unmarshal` of the external go-toml library into
`map[string]interface{}`, for the TOML subset this program reads and
writes (sections, comments, scalar and scalar-array values).  Empty input
yields the empty document (the Go code's nil map, which `updateConfig`
replaces with a fresh empty map). -/
def parseToml (content : String) : Except String TomlDoc :=
  ((strSplitOnChar '\n' content).foldl parseTomlLine
      (Except.ok ⟨[], []⟩)).map TomlReaderState.doc

/-- Serialization of a scalar TOML value. -/
def serializeScalar : TomlValue → String
  | TomlValue.str s => "\"" ++ s ++ "\""
  | TomlValue.bool b => if b then "true" else "false"
  | TomlValue.int i => toString i
  | _ => ""

/-- Serialization of a non-table TOML value (arrays hold scalars in the
subset this program manipulates). -/
def serializeValue : TomlValue → String
  | TomlValue.arr xs =>
    "[" ++ strIntercalate ", " (xs.map serializeScalar) ++ "]"
  | v => serializeScalar v

/-- Lines of the encoded document: scalar bindings first, then each nested
table as an indented `[path]` section, as go-toml's encoder with
`SetIndentTables` lays documents out.  The fuel bounds table nesting depth
and is instantiated above any document's actual depth. -/
def tomlDocLines : Nat → String → List String → TomlDoc → List String
  | 0, _, _, _ => []
  | fuel + 1, ind, pfx, d =>
    let scalars := d.filter (fun kv => !(isTableVal kv.2))
    let tables := d.filter (fun kv => isTableVal kv.2)
    scalars.map (fun kv => ind ++ kv.1 ++ " = " ++ serializeValue kv.2)
      ++ (tables.map (fun kv =>
            match kv.2 with
            | TomlValue.table t =>
              (ind ++ "[" ++ strIntercalate "." (pfx ++ [kv.1]) ++ "]")
                :: tomlDocLines fuel (ind ++ "  ") (pfx ++ [kv.1]) t
            | _ => [])).flatten

/-- Models the external go-toml encoder (with `SetIndentTables`) on the
document subset this program manipulates.  The fuel constant exceeds the
nesting depth of any document the program handles. -/
def serializeToml (d : TomlDoc) : String :=
  strIntercalate "\n" (tomlDocLines 1000 "" [] d) ++ "\n"

/-- One row of the navigable list: the `item` struct of src/main.go. -/
structure ThemeItem where
  title : String
  path : String
  isDirectory : Bool
deriving DecidableEq, Repr

/-- The `tea.Cmd`s the program's own code can emit: the deferred config
patch returned by `handleSelection` and the deferred directory listing
returned by `loadFiles`/`Init`. -/
inductive TeaCmd where
  | patchTheme : String → TeaCmd
  | loadFilesCmd : String → TeaCmd
deriving DecidableEq, Repr

/-- Errors surfaced by the config backup and patch routines. -/
inductive ConfigErr where
  | ioError : ConfigErr
  | parseError : String → ConfigErr
deriving DecidableEq, Repr

/-- The bubbletea `model` struct of src/main.go.  The external list and
viewport widgets are represented by the state this program reads from
them: the item slice, the cursor index, and the viewport's width and
content.  The `themesDir` and `configFile` environment values are threaded
as parameters of the operations that use them, and the config file's
content is explicit filesystem state passed alongside the model. -/
structure Model where
  items : List ThemeItem
  listIndex : Int
  themesDir : String
  viewportContent : String
  viewportWidth : Int
  ready : Bool
  err : Option String
  originalToml : Option String
  tomlBackup : TomlDoc
  lastSelected : Int

/-- `initialModel` (src/main.go lines 209-225): empty list, `lastSelected`
starts at `-1`, nothing rendered yet. -/
def initialModel (themesDir : String) : Model :=
  { items := []
    listIndex := 0
    themesDir := themesDir
    viewportContent := ""
    viewportWidth := 0
    ready := false
    err := none
    originalToml := none
    tomlBackup := []
    lastSelected := -1 }

/-- `backupConfig` (src/main.go lines 273-287).  `cfgFs` is the current
content of the config file (`none` when the file does not exist, so that
`os.ReadFile` fails).  On a read or parse error the method returns early,
leaving the model — in particular `originalToml` — unchanged; only when
both read and parse succeed are the raw bytes and the parsed form stored. -/
def backupConfig (m : Model) (cfgFs : Option String) : Model × Option ConfigErr :=
  match cfgFs with
  | none => (m, some ConfigErr.ioError)
  | some content =>
    match parseToml content with
    | Except.error e => (m, some (ConfigErr.parseError e))
    | Except.ok config =>
      ({ m with originalToml := some content, tomlBackup := config }, none)

/-- `updateConfig` (src/main.go lines 289-320): re-read the config file,
re-parse it, apply `updateConfigDoc`, re-encode, and return the new file
content to be written.  Read and parse errors are returned to the caller
and nothing is written. -/
def updateConfig (cfgFs : Option String) (selectedPath : String) :
    Except ConfigErr String :=
  match cfgFs with
  | none => Except.error ConfigErr.ioError
  | some content =>
    match parseToml content with
    | Except.error e => Except.error (ConfigErr.parseError e)
    | Except.ok config =>
      Except.ok (serializeToml (updateConfigDoc config selectedPath))

/-- The effect of one `updateConfig` call on the config file: on success
the serialized patched document replaces the file content; on error
`os.WriteFile` is never reached and the file is unchanged. -/
def applyPatch (cfgFs : Option String) (selectedPath : String) : Option String :=
  match updateConfig cfgFs selectedPath with
  | Except.ok newContent => some newContent
  | Except.error _ => cfgFs

/-- `restoreConfig` (src/main.go lines 322-324): the bytes
`os.WriteFile` puts back are exactly `m.originalToml` (an empty write when
backup never stored anything, matching a nil byte slice). -/
def restoreConfig (m : Model) : String :=
  (m.originalToml).getD ""

/-- The config file content after `restoreConfig` runs: `os.WriteFile`
replaces whatever content the file had. -/
def restoreWrite (cfgFs : Option String) (m : Model) : Option String :=
  some (restoreConfig m)

/-- `filepath.Dir` of Go's standard library: the path with its last
element removed (`"."` for a bare name, `"/"` below the root). -/
def parentDir (p : String) : String :=
  match (strSplitOnChar '/' p).dropLast with
  | [] => "."
  | [""] => "/"
  | parts => strIntercalate "/" parts

/-- `filepath.Join(dir, name)` for the clean inputs this program passes. -/
def joinPath (dir name : String) : String :=
  if dir = "" then name else dir ++ "/" ++ name

/-- One result of `os.ReadDir`: a child's name and whether it is a
directory. -/
structure DirEntry where
  name : String
  isDir : Bool
deriving DecidableEq, Repr

/-- The `filesLoadedMsg` struct of src/main.go. -/
structure FilesLoadedMsg where
  items : List ThemeItem
  err : Option String
deriving DecidableEq, Repr

/-- `loadFiles` (src/main.go lines 240-271).  `readDirResult` is the
outcome of `os.ReadDir dir` (directory-read order).  On a read error the
message carries no items and the error; otherwise a `".."` parent entry is
prepended unless `dir` is the configured themes root, and the loop appends
one entry per child that is a directory or has the `.toml` suffix. -/
def loadFiles (themesDir dir : String)
    (readDirResult : Except String (List DirEntry)) : FilesLoadedMsg :=
  match readDirResult with
  | Except.error e => ⟨[], some e⟩
  | Except.ok files =>
    let base : List ThemeItem :=
      if dir ≠ themesDir then [⟨"..", parentDir dir, true⟩] else []
    let items := files.foldl (fun acc file =>
      if file.isDir ∨ strEndsWith file.name ".toml" then
        acc ++ [⟨file.name, joinPath dir file.name, file.isDir⟩]
      else acc) base
    ⟨items, none⟩

/-- The `colors.primary` section of a theme file. -/
structure PrimaryColors where
  background : String
  foreground : String
deriving DecidableEq, Repr

/-- One of the `colors.normal` / `colors.bright` octets of a theme file. -/
structure ColorOctet where
  black : String
  red : String
  green : String
  yellow : String
  blue : String
  magenta : String
  cyan : String
  white : String
deriving DecidableEq, Repr

/-- The `colors` table of a theme file. -/
structure ColorsSection where
  primary : PrimaryColors
  normal : ColorOctet
  bright : ColorOctet
deriving DecidableEq, Repr

/-- The `ColorScheme` struct of src/main.go (lines 52-79). -/
structure ColorScheme where
  colors : ColorsSection
deriving DecidableEq, Repr

/-- Reading one string field of the `ColorScheme` struct out of a parsed
document, as go-toml's struct decoding does: a missing table or key leaves
the field at its zero value (the empty string); a value of the wrong shape
is a decode error. -/
def getStringField (d : TomlDoc) : List String → Except String String
  | [] => Except.error "empty field path"
  | [k] =>
    match lookupKey d k with
    | none => Except.ok ""
    | some (TomlValue.str s) => Except.ok s
    | some _ => Except.error ("cannot decode field " ++ k)
  | k :: rest =>
    match lookupKey d k with
    | none => Except.ok ""
    | some (TomlValue.table t) => getStringField t rest
    | some _ => Except.error ("cannot decode field " ++ k)

/-- Models `toml.Unmarshal` of theme file content into the `ColorScheme`
struct. -/
def parseColorScheme (content : String) : Except String ColorScheme := do
  let doc ← parseToml content
  let bg ← getStringField doc ["colors", "primary", "background"]
  let fg ← getStringField doc ["colors", "primary", "foreground"]
  let nBlack ← getStringField doc ["colors", "normal", "black"]
  let nRed ← getStringField doc ["colors", "normal", "red"]
  let nGreen ← getStringField doc ["colors", "normal", "green"]
  let nYellow ← getStringField doc ["colors", "normal", "yellow"]
  let nBlue ← getStringField doc ["colors", "normal", "blue"]
  let nMagenta ← getStringField doc ["colors", "normal", "magenta"]
  let nCyan ← getStringField doc ["colors", "normal", "cyan"]
  let nWhite ← getStringField doc ["colors", "normal", "white"]
  let bBlack ← getStringField doc ["colors", "bright", "black"]
  let bRed ← getStringField doc ["colors", "bright", "red"]
  let bGreen ← getStringField doc ["colors", "bright", "green"]
  let bYellow ← getStringField doc ["colors", "bright", "yellow"]
  let bBlue ← getStringField doc ["colors", "bright", "blue"]
  let bMagenta ← getStringField doc ["colors", "bright", "magenta"]
  let bCyan ← getStringField doc ["colors", "bright", "cyan"]
  let bWhite ← getStringField doc ["colors", "bright", "white"]
  pure ⟨⟨⟨bg, fg⟩,
    ⟨nBlack, nRed, nGreen, nYellow, nBlue, nMagenta, nCyan, nWhite⟩,
    ⟨bBlack, bRed, bGreen, bYellow, bBlue, bMagenta, bCyan, bWhite⟩⟩⟩

/-- A rendered text block as its list of lines.  The external lipgloss
library splits rendered strings on newlines to lay blocks out; strings
with embedded newlines are represented directly by their line lists, and
`blockToString` is the final flattening back to a single string.  ANSI
color escapes are presentation-only and carry no text, so the model keeps
the text content of each line. -/
abbrev Block := List String

/-- The alignment step of lipgloss `Align(Center)`: pad one
already-wrapped line with spaces to width `w`, content centered.  Lines at
or above the width are left unchanged — wrapping happens before alignment,
in `wrapText`. -/
def padCenter (w : Int) (s : String) : String :=
  let wn := w.toNat
  if wn ≤ s.length then s
  else
    let total := wn - s.length
    spaces (total / 2) ++ s ++ spaces (total - total / 2)

/-- The word list of one paragraph, split at spaces. -/
def splitWords (l : List Char) : List (List Char) := splitOnChar ' ' l

/-- Words rejoined with single spaces (one output line of the word
wrapper). -/
def joinWords : List (List Char) → List Char
  | [] => []
  | [x] => x
  | x :: y :: rest => x ++ ' ' :: joinWords (y :: rest)

/-- reflow `wordwrap` as lipgloss applies it: greedily fill lines with
whole words separated by single spaces, breaking before a word that would
push the line past `w`; a single word longer than `w` is left whole for
the hard wrapper. -/
def wordWrapCore (w : Nat) : List (List Char) → List (List Char)
  | [] => [[]]
  | first :: rest =>
    let r := rest.foldl (fun (acc : List (List Char) × List Char) word =>
      if acc.2.length + 1 + word.length ≤ w then (acc.1, acc.2 ++ ' ' :: word)
      else (acc.1 ++ [acc.2], word)) ([], first)
    r.1 ++ [r.2]

/-- reflow `wrap` as lipgloss applies it after word wrapping: force-break
a line into cells of at most `max w 1` characters.  The fuel is the line
length, which bounds the number of cells. -/
def chunkCharsGo (w : Nat) : List Char → Nat → List (List Char)
  | [], _ => []
  | l, 0 => [l]
  | x :: rest, fuel + 1 =>
    ((x :: rest).take (max w 1)) :: chunkCharsGo w ((x :: rest).drop (max w 1)) fuel

/-- Force-breaking one line at width `w`. -/
def chunkChars (w : Nat) (l : List Char) : List (List Char) :=
  chunkCharsGo w l l.length

/-- The wrapping lipgloss performs inside `Style.Render` for a set width:
`wordwrap` then hard `wrap` at `w`. -/
def wrapText (w : Nat) (text : String) : List String :=
  ((wordWrapCore w (splitWords text.data)).map (chunkChars w)).flatten.map
    String.mk

/-- lipgloss `Width(w).Align(Center).Render`: for a positive width the
content is word-wrapped and force-wrapped at `w` and every resulting line
is centered to width `w`; a non-positive width wraps and pads nothing. -/
def renderCentered (w : Int) (text : String) : Block :=
  if 0 < w then (wrapText w.toNat text).map (padCenter w) else [text]

/-- Left-aligned padding of a line to a width. -/
def padRight (w : Nat) (s : String) : String :=
  s ++ spaces (w - s.length)

/-- Width of a block: its longest line. -/
def blockWidth (b : Block) : Nat :=
  b.foldr (fun l acc => max l.length acc) 0

/-- Height of the tallest block in a list. -/
def blocksHeight (bs : List Block) : Nat :=
  bs.foldr (fun b acc => max b.length acc) 0

/-- Line `i` of a block, blank when past its end. -/
def getLine (b : Block) (i : Nat) : String :=
  (b.get? i).getD ""

/-- Concatenation of a list of strings. -/
def strJoin : List String → String
  | [] => ""
  | s :: rest => s ++ strJoin rest

/-- lipgloss `JoinHorizontal`: blocks side by side, each padded to its own
width, shorter blocks padded with blank lines. -/
def joinHorizontal (bs : List Block) : Block :=
  (List.range (blocksHeight bs)).map (fun i =>
    strJoin (bs.map (fun b => padRight (blockWidth b) (getLine b i))))

/-- lipgloss `JoinVertical(Center)`: blocks stacked, every line centered to
the widest block. -/
def joinVertical (bs : List Block) : Block :=
  let w := bs.foldr (fun b acc => max (blockWidth b) acc) 0
  bs.flatten.map (fun l => padCenter (Int.ofNat w) l)

/-- A horizontal border run of the given length. -/
def hbar (n : Nat) : String := String.mk (List.replicate n '─')

/-- lipgloss `Width(contentWidth).Padding(1).Border(RoundedBorder())`: the
block padded one cell on every side and framed with rounded border
characters. -/
def borderBox (contentWidth : Int) (b : Block) : Block :=
  let inner := ([""] ++ b ++ [""]).map (fun l =>
    " " ++ padRight contentWidth.toNat l ++ " ")
  let w := blockWidth inner
  ("╭" ++ hbar w ++ "╮") ::
    (inner.map (fun l => "│" ++ padRight w l ++ "│") ++ ["╰" ++ hbar w ++ "╯"])

/-- `renderColorBox` (src/main.go lines 82-97): the solid swatch rendered
at the box width above the label rendered — wrapped and centered — at the
same width. -/
def renderColorBox (color label : String) (boxWidth : Int) : Block :=
  renderCentered boxWidth " " ++ renderCentered boxWidth label

/-- The rows of `numColumns` boxes built by the grouping loop of
`renderColorPreview` (i advancing by `numColumns = 4`); the fuel is the
list length, which bounds the number of rows. -/
def chunksOf4Go : Nat → List α → List (List α)
  | _, [] => []
  | 0, l => [l]
  | fuel + 1, x :: rest => ((x :: rest).take 4) :: chunksOf4Go fuel ((x :: rest).drop 4)

/-- Chunks of four, the grouping loop's row contents. -/
def chunksOf4 (l : List α) : List (List α) :=
  chunksOf4Go l.length l

/-- The `renderColorGroup` closure of `renderColorPreview` (src/main.go
lines 157-180): rows of four boxes joined horizontally, stacked, and put
in a bordered box.  As in the source, `title` is unused. -/
def renderColorGroup (colors : List (String × String)) (title : String)
    (contentWidth boxWidth : Int) : Block :=
  let rows := (chunksOf4 colors).map (fun cs =>
    joinHorizontal (cs.map (fun c => renderColorBox c.1 c.2 boxWidth)))
  borderBox contentWidth (joinVertical rows)

/-- `titleStyle.Render`: one blank line of top padding above the title
text rendered — wrapped and centered — at the content width. -/
def renderTitle (contentWidth : Int) (text : String) : Block :=
  "" :: renderCentered contentWidth text

/-- Flattening a rendered block back to the single string the Go functions
return. -/
def blockToString : Block → String
  | [] => ""
  | [l] => l
  | l :: rest => l ++ "\n" ++ blockToString rest

/-- The `normalColors` slice of `renderColorPreview` (src/main.go lines
112-124). -/
def normalColorPairs (scheme : ColorScheme) : List (String × String) :=
  [(scheme.colors.normal.black, "Black"),
   (scheme.colors.normal.red, "Red"),
   (scheme.colors.normal.green, "Green"),
   (scheme.colors.normal.yellow, "Yellow"),
   (scheme.colors.normal.blue, "Blue"),
   (scheme.colors.normal.magenta, "Magenta"),
   (scheme.colors.normal.cyan, "Cyan"),
   (scheme.colors.normal.white, "White")]

/-- The `brightColors` slice of `renderColorPreview` (src/main.go lines
126-138). -/
def brightColorPairs (scheme : ColorScheme) : List (String × String) :=
  [(scheme.colors.bright.black, "Bright Black"),
   (scheme.colors.bright.red, "Bright Red"),
   (scheme.colors.bright.green, "Bright Green"),
   (scheme.colors.bright.yellow, "Bright Yellow"),
   (scheme.colors.bright.blue, "Bright Blue"),
   (scheme.colors.bright.magenta, "Bright Magenta"),
   (scheme.colors.bright.cyan, "Bright Cyan"),
   (scheme.colors.bright.white, "Bright White")]

/-- The bordered background/foreground row of the preview
(src/main.go lines 141-154). -/
def previewBgfg (scheme : ColorScheme) (contentWidth boxWidth : Int) : Block :=
  borderBox contentWidth (joinHorizontal
    [renderColorBox scheme.colors.primary.background "Background" boxWidth,
     ["  "],
     renderColorBox scheme.colors.primary.foreground "Foreground" boxWidth])

/-- The layout `renderColorPreview` builds once the scheme is parsed
(src/main.go lines 106-206), joined vertically.  `Int.tdiv` is Go's
truncating integer division. -/
def renderPreviewBlock (scheme : ColorScheme) (viewportWidth : Int) : Block :=
  let contentWidth := viewportWidth - 4
  let numColumns : Int := 4
  let boxWidth := Int.tdiv (contentWidth - (numColumns - 1) * 2) numColumns
  joinVertical
    [renderTitle contentWidth "Theme Preview",
     [""],
     renderTitle contentWidth "Background/Foreground Colors",
     previewBgfg scheme contentWidth boxWidth,
     [""],
     renderTitle contentWidth "Normal Colors",
     renderColorGroup (normalColorPairs scheme) "Normal Colors" contentWidth
       boxWidth,
     [""],
     renderTitle contentWidth "Bright Colors",
     renderColorGroup (brightColorPairs scheme) "Bright Colors" contentWidth
       boxWidth]

/-- `renderColorPreview` (src/main.go lines 100-207): on a theme parse
error, a visible error string; otherwise the rendered preview layout. -/
def renderColorPreview (content : String) (viewportWidth : Int) : String :=
  match parseColorScheme content with
  | Except.error e => "Error parsing theme: " ++ e
  | Except.ok scheme => blockToString (renderPreviewBlock scheme viewportWidth)

/-- `m.list.SelectedItem()` of the external list widget: the item under
the cursor, or nothing when the index is out of range. -/
def selectedItem (m : Model) : Option ThemeItem :=
  if 0 ≤ m.listIndex then m.items.get? m.listIndex.toNat else none

/-- `handleSelection` (src/main.go lines 327-357).  `fs` reads theme
files.  The debounce guard skips everything when the cursor index equals
the recorded `lastSelected` and a selection was recorded before; otherwise
the index is recorded and, when the highlighted entry is a non-directory
`.toml` file, its content is read, the preview is rendered into the
viewport, and the deferred config patch is returned as a command. -/
def handleSelection (fs : String → Except String String) (m : Model) :
    Model × Option TeaCmd :=
  let currentIndex := m.listIndex
  if m.lastSelected = currentIndex ∧ m.lastSelected ≠ -1 then (m, none)
  else
    let m1 := { m with lastSelected := currentIndex }
    match selectedItem m1 with
    | some i =>
      if ¬ i.isDirectory ∧ strEndsWith i.path ".toml" then
        match fs i.path with
        | Except.error e => ({ m1 with err := some e }, none)
        | Except.ok content =>
          ({ m1 with viewportContent :=
              renderColorPreview content m1.viewportWidth },
            some (TeaCmd.patchTheme i.path))
      else (m1, none)
    | none => (m1, none)

/-- The key messages the `Update` switch distinguishes
(src/main.go lines 385-418). -/
inductive KeyMsg where
  | ctrlC | q | enter | up | down | keyK | keyJ | right | pgDown | keyL
  | left | pgUp | keyH | slash | other
deriving DecidableEq, Repr

/-- The external list widget's cursor move on an up key. -/
def listMoveUp (i : Int) : Int := max 0 (i - 1)

/-- The external list widget's cursor move on a down key. -/
def listMoveDown (len : Nat) (i : Int) : Int :=
  if len = 0 then i else min ((len : Int) - 1) (i + 1)

/-- The outcome of one `Update` dispatch: the new model, the config file
content (changed only by the quit branch's restore), the commands handed
to the runtime, and whether `tea.Quit` was returned. -/
structure StepResult where
  m : Model
  cfgFs : Option String
  cmds : List TeaCmd
  quit : Bool

/-- The `tea.KeyMsg` arm of `Update` (src/main.go lines 385-418).  Quit
keys restore the config backup and quit.  The enter branch runs the list
widget update and `handleSelection`, but returns `m, tea.Quit`, so the
accumulated commands are discarded and only Quit reaches the runtime.
Navigation keys move the cursor through the external widget and then run
`handleSelection`, whose command is dispatched. -/
def updateKey (fs : String → Except String String) (cfgFs : Option String)
    (m : Model) (key : KeyMsg) : StepResult :=
  match key with
  | KeyMsg.ctrlC | KeyMsg.q =>
    ⟨m, restoreWrite cfgFs m, [], true⟩
  | KeyMsg.enter =>
    let r := handleSelection fs m
    ⟨r.1, cfgFs, [], true⟩
  | KeyMsg.up | KeyMsg.keyK =>
    let m1 := { m with listIndex := listMoveUp m.listIndex }
    let r := handleSelection fs m1
    ⟨r.1, cfgFs, r.2.toList, false⟩
  | KeyMsg.down | KeyMsg.keyJ =>
    let m1 := { m with listIndex := listMoveDown m.items.length m.listIndex }
    let r := handleSelection fs m1
    ⟨r.1, cfgFs, r.2.toList, false⟩
  | KeyMsg.right | KeyMsg.pgDown | KeyMsg.keyL =>
    let r := handleSelection fs m
    ⟨r.1, cfgFs, r.2.toList, false⟩
  | KeyMsg.left | KeyMsg.pgUp | KeyMsg.keyH =>
    let r := handleSelection fs m
    ⟨r.1, cfgFs, r.2.toList, false⟩
  | KeyMsg.slash => ⟨m, cfgFs, [], false⟩
  | KeyMsg.other => ⟨m, cfgFs, [], false⟩

/-- The `filesLoadedMsg` arm of `Update` (src/main.go lines 372-383): on
error, latch it; otherwise replace the items and evaluate the initial
selection. -/
def updateFilesLoaded (fs : String → Except String String) (m : Model)
    (msg : FilesLoadedMsg) : Model × List TeaCmd :=
  match msg.err with
  | some e => ({ m with err := some e }, [])
  | none =>
    let m1 := { m with items := msg.items }
    let r := handleSelection fs m1
    (r.1, r.2.toList)

/-- `Init` (src/main.go lines 227-238): create the config file empty when
it is missing, then request the listing of the themes root. -/
def tuiInit (m : Model) (cfgFs : Option String) : Option String × TeaCmd :=
  let cfgFs' := match cfgFs with
    | none => some ""
    | some c => some c
  (cfgFs', TeaCmd.loadFilesCmd m.themesDir)

/-- How the process left `main` (src/main.go lines 447-463): either an
early `os.Exit` with its code and the config file state at that moment, or
entry into the interactive loop with the backed-up model. -/
inductive StartupOutcome where
  | exited : Nat → Option String → StartupOutcome
  | running : Model → Option String → StartupOutcome

/-- `main` up to `p.Run()` (src/main.go lines 447-457): build the initial
model and take the backup; a backup failure exits with code 1 before the
interactive loop — and before `Init` — runs. -/
def mainStartup (themesDir : String) (cfgFs : Option String) : StartupOutcome :=
  match backupConfig (initialModel themesDir) cfgFs with
  | (_, some _) => StartupOutcome.exited 1 cfgFs
  | (m1, none) => StartupOutcome.running m1 cfgFs

/-- Substring containment: `sub` occurs contiguously inside `s`. -/
def containsStr (s sub : String) : Prop := sub.data <:+: s.data

instance (s sub : String) : Decidable (containsStr s sub) :=
  inferInstanceAs (Decidable (sub.data <:+: s.data))

/-- Boolean contiguous-occurrence scan, the executable twin of
`containsStr` used to evaluate containment on concrete outputs. -/
def hasInfixB (sub : List Char) : List Char → Bool
  | [] => sub.isEmpty
  | x :: rest => sub.isPrefixOf (x :: rest) || hasInfixB sub rest

/-- Some line of the block contains `s` contiguously. -/
def hasLineContaining (b : Block) (s : String) : Prop :=
  ∃ l, l ∈ b ∧ containsStr l s

/-- The 18 color labels of the preview: Background, Foreground, the 8
normal color names, and the 8 bright color names. -/
def previewLabels : List String :=
  ["Background", "Foreground", "Black", "Red", "Green", "Yellow", "Blue",
   "Magenta", "Cyan", "White", "Bright Black", "Bright Red", "Bright Green",
   "Bright Yellow", "Bright Blue", "Bright Magenta", "Bright Cyan",
   "Bright White"]

/-- A complete theme file content with all 18 color fields present. -/
def sampleTheme : String :=
  "[colors.primary]\nbackground = \"#101010\"\nforeground = \"#f0f0f0\"\n"
    ++ "[colors.normal]\nblack = \"#000000\"\nred = \"#aa0000\"\n"
    ++ "green = \"#00aa00\"\nyellow = \"#aaaa00\"\nblue = \"#0000aa\"\n"
    ++ "magenta = \"#aa00aa\"\ncyan = \"#00aaaa\"\nwhite = \"#aaaaaa\"\n"
    ++ "[colors.bright]\nblack = \"#555555\"\nred = \"#ff5555\"\n"
    ++ "green = \"#55ff55\"\nyellow = \"#ffff55\"\nblue = \"#5555ff\"\n"
    ++ "magenta = \"#ff55ff\"\ncyan = \"#55ffff\"\nwhite = \"#ffffff\"\n"

/-- The parsed form of `sampleTheme`. -/
def sampleScheme : ColorScheme :=
  ⟨⟨⟨"#101010", "#f0f0f0"⟩,
    ⟨"#000000", "#aa0000", "#00aa00", "#aaaa00", "#0000aa", "#aa00aa",
      "#00aaaa", "#aaaaaa"⟩,
    ⟨"#555555", "#ff5555", "#55ff55", "#ffff55", "#5555ff", "#ff55ff",
      "#55ffff", "#ffffff"⟩⟩⟩

theorem lookupKey_insertKey_self (d : TomlDoc) (k : String) (v : TomlValue) :
    lookupKey (insertKey d k v) k = some v := by
  induction d with
  | nil => simp [insertKey, lookupKey]
  | cons hd tl ih =>
    obtain ⟨k', v'⟩ := hd
    by_cases h : k' = k
    · simp [insertKey, lookupKey, h]
    · simp [insertKey, lookupKey, h, ih]

theorem lookupKey_insertKey_ne (d : TomlDoc) (k k' : String) (v : TomlValue)
    (h : k' ≠ k) : lookupKey (insertKey d k v) k' = lookupKey d k' := by
  induction d with
  | nil => simp [insertKey, lookupKey, Ne.symm h]
  | cons hd tl ih =>
    obtain ⟨k₀, v₀⟩ := hd
    by_cases h₀ : k₀ = k
    · subst h₀
      simp [insertKey, lookupKey, Ne.symm h]
    · simp [insertKey, lookupKey, h₀, ih]

theorem updateConfigDoc_of_table (d : TomlDoc) (g : TomlDoc) (p : String)
    (h : lookupKey d "general" = some (TomlValue.table g)) :
    updateConfigDoc d p = insertKey d "general" (TomlValue.table
      (insertKey (insertKey g "live_config_reload" (TomlValue.bool true))
        "import" (TomlValue.arr [TomlValue.str p]))) := by
  unfold updateConfigDoc
  rw [h]

theorem updateConfigDoc_of_no_table (d : TomlDoc) (p : String)
    (h : ∀ g, lookupKey d "general" ≠ some (TomlValue.table g)) :
    updateConfigDoc d p =
      insertKey (insertKey d "live_config_reload" (TomlValue.bool true))
        "import" (TomlValue.arr [TomlValue.str p]) := by
  unfold updateConfigDoc
  cases h0 : lookupKey d "general" with
  | none => rfl
  | some v =>
    cases v with
    | table g => exact absurd h0 (h g)
    | str s => rfl
    | bool b => rfl
    | int i => rfl
    | arr a => rfl

theorem importValue_of_table (d : TomlDoc) (g : TomlDoc)
    (h : lookupKey d "general" = some (TomlValue.table g)) :
    importValue d = lookupKey g "import" := by
  unfold importValue
  rw [h]

theorem importValue_of_no_table (d : TomlDoc)
    (h : ∀ g, lookupKey d "general" ≠ some (TomlValue.table g)) :
    importValue d = lookupKey d "import" := by
  unfold importValue
  cases h0 : lookupKey d "general" with
  | none => rfl
  | some v =>
    cases v with
    | table g => exact absurd h0 (h g)
    | str s => rfl
    | bool b => rfl
    | int i => rfl
    | arr a => rfl

/-- C2: a patch on a document whose top-level `general` key holds a table
sets `live_config_reload = true` and `import = [selectedPath]` inside that
table and leaves every other key — the other keys of `general` and every
top-level key other than `general` — with its previous value; on a
document without a `general` key the same two keys are set at the top
level with the same frame condition on all other top-level keys. -/
theorem updateConfig_frame (d : TomlDoc) (p : String) :
    (∀ g, lookupKey d "general" = some (TomlValue.table g) →
      ∃ g', lookupKey (updateConfigDoc d p) "general" = some (TomlValue.table g')
        ∧ lookupKey g' "live_config_reload" = some (TomlValue.bool true)
        ∧ lookupKey g' "import" = some (TomlValue.arr [TomlValue.str p])
        ∧ (∀ k, k ≠ "live_config_reload" → k ≠ "import" →
            lookupKey g' k = lookupKey g k)
        ∧ (∀ k, k ≠ "general" →
            lookupKey (updateConfigDoc d p) k = lookupKey d k))
    ∧ (lookupKey d "general" = none →
      lookupKey (updateConfigDoc d p) "live_config_reload" =
          some (TomlValue.bool true)
        ∧ lookupKey (updateConfigDoc d p) "import" =
            some (TomlValue.arr [TomlValue.str p])
        ∧ (∀ k, k ≠ "live_config_reload" → k ≠ "import" →
            lookupKey (updateConfigDoc d p) k = lookupKey d k)) := by
  constructor
  · intro g hg
    rw [updateConfigDoc_of_table d g p hg]
    refine ⟨insertKey (insertKey g "live_config_reload" (TomlValue.bool true))
      "import" (TomlValue.arr [TomlValue.str p]),
      lookupKey_insertKey_self _ _ _, ?_, lookupKey_insertKey_self _ _ _,
      ?_, ?_⟩
    · rw [lookupKey_insertKey_ne _ _ _ _ (by decide)]
      exact lookupKey_insertKey_self _ _ _
    · intro k h1 h2
      rw [lookupKey_insertKey_ne _ _ _ _ h2, lookupKey_insertKey_ne _ _ _ _ h1]
    · intro k hk
      exact lookupKey_insertKey_ne _ _ _ _ hk
  · intro h0
    rw [updateConfigDoc_of_no_table d p (fun g hg => by rw [h0] at hg; cases hg)]
    refine ⟨?_, lookupKey_insertKey_self _ _ _, ?_⟩
    · rw [lookupKey_insertKey_ne _ _ _ _ (by decide)]
      exact lookupKey_insertKey_self _ _ _
    · intro k h1 h2
      rw [lookupKey_insertKey_ne _ _ _ _ h2, lookupKey_insertKey_ne _ _ _ _ h1]

theorem updateConfig_frame_witness :
    lookupKey (updateConfigDoc
        [("general", TomlValue.table [("cursor", TomlValue.str "block")]),
          ("font", TomlValue.int 12)] "/t/a.toml") "font" =
      some (TomlValue.int 12) := by
  obtain ⟨g', _, _, _, _, hframe⟩ :=
    (updateConfig_frame
      [("general", TomlValue.table [("cursor", TomlValue.str "block")]),
        ("font", TomlValue.int 12)] "/t/a.toml").1
      [("cursor", TomlValue.str "block")] rfl
  rw [hframe "font" (by decide)]
  rfl

theorem lookupKey_general_after_top_patch (d : TomlDoc) (p : String) :
    lookupKey (insertKey (insertKey d "live_config_reload" (TomlValue.bool true))
        "import" (TomlValue.arr [TomlValue.str p])) "general" =
      lookupKey d "general" := by
  rw [lookupKey_insertKey_ne _ _ _ _ (by decide),
    lookupKey_insertKey_ne _ _ _ _ (by decide)]

theorem importValue_after_top_patches (d : TomlDoc) (p1 p2 : String)
    (hno : ∀ g, lookupKey d "general" ≠ some (TomlValue.table g)) :
    importValue (updateConfigDoc (updateConfigDoc d p1) p2) =
      some (TomlValue.arr [TomlValue.str p2]) := by
  rw [updateConfigDoc_of_no_table d p1 hno]
  have hno1 : ∀ g,
      lookupKey (insertKey (insertKey d "live_config_reload" (TomlValue.bool true))
        "import" (TomlValue.arr [TomlValue.str p1])) "general" ≠
      some (TomlValue.table g) := by
    intro g
    rw [lookupKey_general_after_top_patch]
    exact hno g
  rw [updateConfigDoc_of_no_table _ p2 hno1]
  have hno2 : ∀ g,
      lookupKey (insertKey (insertKey
          (insertKey (insertKey d "live_config_reload" (TomlValue.bool true))
            "import" (TomlValue.arr [TomlValue.str p1]))
          "live_config_reload" (TomlValue.bool true))
        "import" (TomlValue.arr [TomlValue.str p2])) "general" ≠
      some (TomlValue.table g) := by
    intro g
    rw [lookupKey_general_after_top_patch, lookupKey_general_after_top_patch]
    exact hno g
  rw [importValue_of_no_table _ hno2]
  exact lookupKey_insertKey_self _ _ _

/-- C3: patching a document with `p1` and then with `p2` leaves the import
list the patcher manages holding exactly `[p2]`; for distinct paths `p1`
is not in that list. -/
theorem updateConfig_twice_import (d : TomlDoc) (p1 p2 : String)
    (h : p1 ≠ p2) :
    importValue (updateConfigDoc (updateConfigDoc d p1) p2) =
        some (TomlValue.arr [TomlValue.str p2])
      ∧ TomlValue.str p1 ∉ [TomlValue.str p2] := by
  constructor
  · cases h0 : lookupKey d "general" with
    | some v =>
      cases v with
      | table g =>
        rw [updateConfigDoc_of_table d g p1 h0]
        have h1 : lookupKey (insertKey d "general" (TomlValue.table
            (insertKey (insertKey g "live_config_reload" (TomlValue.bool true))
              "import" (TomlValue.arr [TomlValue.str p1])))) "general" =
            some (TomlValue.table
              (insertKey (insertKey g "live_config_reload" (TomlValue.bool true))
                "import" (TomlValue.arr [TomlValue.str p1]))) :=
          lookupKey_insertKey_self _ _ _
        rw [updateConfigDoc_of_table _ _ p2 h1,
          importValue_of_table _ _ (lookupKey_insertKey_self _ _ _)]
        exact lookupKey_insertKey_self _ _ _
      | str s =>
        exact importValue_after_top_patches d p1 p2
          (fun g hg => by rw [h0] at hg; simp at hg)
      | bool b =>
        exact importValue_after_top_patches d p1 p2
          (fun g hg => by rw [h0] at hg; simp at hg)
      | int i =>
        exact importValue_after_top_patches d p1 p2
          (fun g hg => by rw [h0] at hg; simp at hg)
      | arr a =>
        exact importValue_after_top_patches d p1 p2
          (fun g hg => by rw [h0] at hg; simp at hg)
    | none =>
      exact importValue_after_top_patches d p1 p2
        (fun g hg => by rw [h0] at hg; simp at hg)
  · intro hmem
    rcases List.mem_singleton.mp hmem with heq
    exact h (TomlValue.str.inj heq)

theorem updateConfig_twice_import_witness :
    importValue (updateConfigDoc (updateConfigDoc
        [("general", TomlValue.table [])] "/t/a.toml") "/t/b.toml") =
      some (TomlValue.arr [TomlValue.str "/t/b.toml"]) :=
  (updateConfig_twice_import [("general", TomlValue.table [])]
    "/t/a.toml" "/t/b.toml" (by decide)).1

/-- C10: on a document whose top-level `general` key holds a non-table
value, the patch writes the two keys at the top level and leaves the
`general` value exactly as it was. -/
theorem updateConfig_general_not_table (d : TomlDoc) (p : String)
    (v : TomlValue) (hv : lookupKey d "general" = some v)
    (ht : isTableVal v = false) :
    lookupKey (updateConfigDoc d p) "general" = some v
      ∧ lookupKey (updateConfigDoc d p) "live_config_reload" =
          some (TomlValue.bool true)
      ∧ lookupKey (updateConfigDoc d p) "import" =
          some (TomlValue.arr [TomlValue.str p]) := by
  have hno : ∀ g, lookupKey d "general" ≠ some (TomlValue.table g) := by
    intro g hg
    rw [hv] at hg
    cases hg
    cases ht
  rw [updateConfigDoc_of_no_table d p hno]
  refine ⟨?_, ?_, lookupKey_insertKey_self _ _ _⟩
  · rw [lookupKey_insertKey_ne _ _ _ _ (by decide),
      lookupKey_insertKey_ne _ _ _ _ (by decide)]
    exact hv
  · rw [lookupKey_insertKey_ne _ _ _ _ (by decide)]
    exact lookupKey_insertKey_self _ _ _

theorem updateConfig_general_not_table_witness :
    lookupKey (updateConfigDoc [("general", TomlValue.str "x")] "/p.toml")
        "general" = some (TomlValue.str "x") :=
  (updateConfig_general_not_table [("general", TomlValue.str "x")] "/p.toml"
    (TomlValue.str "x") rfl rfl).1

theorem backupConfig_ok_inversion (m m1 : Model) (cfgFs : Option String)
    (h : backupConfig m cfgFs = (m1, none)) :
    ∃ content config, cfgFs = some content
      ∧ parseToml content = Except.ok config
      ∧ m1 = { m with originalToml := some content, tomlBackup := config } := by
  cases cfgFs with
  | none => simp [backupConfig] at h
  | some content =>
    cases hp : parseToml content with
    | error e => simp [backupConfig, hp] at h
    | ok config =>
      refine ⟨content, config, rfl, hp, ?_⟩
      simp [backupConfig, hp] at h
      exact h.symm

/-- C1: once the backup succeeds, the file content `restoreConfig` writes
back after any number of `updateConfig` patches is exactly the original
content captured by `backupConfig`, and a second restore leaves the file
with the same content as the first. -/
theorem restore_after_patches (m m1 : Model) (cfgFs : Option String)
    (h : backupConfig m cfgFs = (m1, none)) (ps : List String) :
    restoreWrite (ps.foldl applyPatch cfgFs) m1 = cfgFs
      ∧ restoreWrite (restoreWrite (ps.foldl applyPatch cfgFs) m1) m1 =
          restoreWrite (ps.foldl applyPatch cfgFs) m1 := by
  obtain ⟨content, config, hc, hp, hm⟩ := backupConfig_ok_inversion m m1 cfgFs h
  subst hc
  subst hm
  exact ⟨rfl, rfl⟩

theorem restore_after_patches_witness :
    restoreWrite (["/t/a.toml", "/t/b.toml"].foldl applyPatch (some "a = 1\n"))
        { initialModel "/themes" with
            originalToml := some "a = 1\n",
            tomlBackup := [("a", TomlValue.int 1)] } = some "a = 1\n" :=
  (restore_after_patches (initialModel "/themes")
    { initialModel "/themes" with
        originalToml := some "a = 1\n",
        tomlBackup := [("a", TomlValue.int 1)] }
    (some "a = 1\n") rfl ["/t/a.toml", "/t/b.toml"]).1

/-- C4 counterexample: on config content that reads fine but fails to
parse, `backupConfig` returns the parse error with the model unchanged —
in particular the raw bytes are not retained in `originalToml`. -/
theorem backup_parse_failure_drops_bytes :
    (backupConfig (initialModel "/themes") (some "not toml")).1.originalToml
        = none
      ∧ (backupConfig (initialModel "/themes") (some "not toml")).2 ≠ none := by
  constructor
  · rfl
  · decide

/-- C4 amended: when the read succeeds, a parse failure is propagated with
the model — and hence `originalToml` — left unchanged; the raw bytes are
retained exactly when parsing also succeeds. -/
theorem backup_retains_bytes_iff_parse_ok (m : Model) (content : String) :
    (∀ e, parseToml content = Except.error e →
      backupConfig m (some content) = (m, some (ConfigErr.parseError e)))
    ∧ (∀ config, parseToml content = Except.ok config →
        backupConfig m (some content) =
          ({ m with originalToml := some content, tomlBackup := config },
            none)) := by
  constructor
  · intro e he
    simp [backupConfig, he]
  · intro config hc
    simp [backupConfig, hc]

theorem backup_retains_bytes_iff_parse_ok_witness :
    backupConfig (initialModel "/themes") (some "a = 1\n") =
      ({ initialModel "/themes" with
          originalToml := some "a = 1\n",
          tomlBackup := [("a", TomlValue.int 1)] }, none) :=
  (backup_retains_bytes_iff_parse_ok (initialModel "/themes") "a = 1\n").2
    [("a", TomlValue.int 1)] rfl

/-- C5: pressing enter with the highlighted entry a directory returns
`tea.Quit` with no commands at all — the program terminates and no new
directory listing is ever requested, instead of descending. -/
theorem enter_on_directory_quits :
    updateKey (fun _ => Except.error "unused") (some "cfg")
        { initialModel "/root/themes" with
            items := [⟨"themes2", "/root/themes/themes2", true⟩],
            listIndex := 0 }
        KeyMsg.enter =
      ⟨{ initialModel "/root/themes" with
            items := [⟨"themes2", "/root/themes/themes2", true⟩],
            listIndex := 0, lastSelected := 0 },
        some "cfg", [], true⟩ := rfl

/-- C6: with the config file missing, `main` exits with code 1 from the
failed backup before the interactive loop — the file is still missing at
exit — even though `Init`, had it run, would have created the file empty
and requested the themes listing. -/
theorem missing_config_exits_before_create :
    mainStartup "/themes" none = StartupOutcome.exited 1 none
      ∧ (tuiInit (initialModel "/themes") none).1 = some ""
      ∧ (tuiInit (initialModel "/themes") none).2 =
          TeaCmd.loadFilesCmd "/themes" :=
  ⟨rfl, rfl, rfl⟩

theorem loadFiles_foldl_filterMap (dir : String) (files : List DirEntry)
    (acc : List ThemeItem) :
    files.foldl (fun acc file =>
        if file.isDir ∨ strEndsWith file.name ".toml" then
          acc ++ [⟨file.name, joinPath dir file.name, file.isDir⟩]
        else acc) acc
      = acc ++ files.filterMap (fun file =>
          if file.isDir ∨ strEndsWith file.name ".toml" then
            some ⟨file.name, joinPath dir file.name, file.isDir⟩
          else none) := by
  induction files generalizing acc with
  | nil => simp
  | cons f rest ih =>
    by_cases h : (f.isDir : Prop) ∨ strEndsWith f.name ".toml"
    · simp [List.foldl_cons, List.filterMap_cons, h, ih]
    · simp [List.foldl_cons, List.filterMap_cons, h, ih]

/-- C7: a failed directory read yields an error and no entries; a
successful read yields a `".."` entry pointing at the parent exactly when
the directory is not the themes root, followed by one entry, in
directory-read order, per child that is a directory or has the `.toml`
extension, all other children excluded. -/
theorem loadFiles_spec (themesDir dir : String) :
    (∀ e, loadFiles themesDir dir (Except.error e) = ⟨[], some e⟩)
    ∧ (∀ files, loadFiles themesDir dir (Except.ok files) =
        ⟨(if dir = themesDir then [] else [⟨"..", parentDir dir, true⟩])
          ++ files.filterMap (fun file =>
              if file.isDir ∨ strEndsWith file.name ".toml" then
                some ⟨file.name, joinPath dir file.name, file.isDir⟩
              else none),
          none⟩) := by
  constructor
  · intro e
    rfl
  · intro files
    simp only [loadFiles]
    rw [loadFiles_foldl_filterMap]
    by_cases hd : dir = themesDir
    · simp [hd]
    · simp [hd]

/-- C8: `lastSelected` starts at `-1`; a selection evaluation at the index
recorded by the previous evaluation performs no render and no patch (the
model is returned untouched with no command) — unless no selection was
recorded yet (`lastSelected = -1`), in which case a highlighted theme file
is read, rendered into the viewport, and the patch command is issued. -/
theorem selection_debounce (fs : String → Except String String) (m : Model) :
    (initialModel m.themesDir).lastSelected = -1
    ∧ (m.lastSelected = m.listIndex → m.lastSelected ≠ -1 →
        handleSelection fs m = (m, none))
    ∧ (m.lastSelected = -1 →
        ∀ i content, selectedItem m = some i → i.isDirectory = false →
          strEndsWith i.path ".toml" = true → fs i.path = Except.ok content →
          handleSelection fs m =
            ({ m with
                lastSelected := m.listIndex,
                viewportContent := renderColorPreview content m.viewportWidth },
              some (TeaCmd.patchTheme i.path))) := by
  refine ⟨rfl, ?_, ?_⟩
  · intro h1 h2
    unfold handleSelection
    rw [if_pos ⟨h1, h2⟩]
  · intro h0 i content hi hd ht hf
    unfold handleSelection
    rw [if_neg (fun hcon => hcon.2 h0)]
    have hsel : selectedItem { m with lastSelected := m.listIndex } = some i := by
      simpa [selectedItem] using hi
    simp [hsel, hd, ht, hf]

theorem strData_append (a b : String) : (a ++ b).data = a.data ++ b.data := rfl

theorem containsStr_self (s : String) : containsStr s s :=
  ⟨[], [], by simp⟩

theorem containsStr_append_left (x l : String) (s : String)
    (h : containsStr l s) : containsStr (l ++ x) s := by
  unfold containsStr at *
  rw [strData_append]
  exact h.trans ⟨[], x.data, by simp⟩

theorem containsStr_append_right (x l : String) (s : String)
    (h : containsStr l s) : containsStr (x ++ l) s := by
  unfold containsStr at *
  rw [strData_append]
  exact h.trans ⟨x.data, [], by simp⟩

theorem containsStr_wrap (x y l s : String) (h : containsStr l s) :
    containsStr (x ++ l ++ y) s :=
  containsStr_append_left y (x ++ l) s (containsStr_append_right x l s h)

theorem containsStr_padRight (w : Nat) (l s : String) (h : containsStr l s) :
    containsStr (padRight w l) s :=
  containsStr_append_left _ _ _ h

theorem containsStr_padCenter (w : Int) (l s : String) (h : containsStr l s) :
    containsStr (padCenter w l) s := by
  simp only [padCenter]
  split
  · exact h
  · exact containsStr_wrap _ _ _ _ h

theorem padCenter_contains_self (w : Int) (s : String) :
    containsStr (padCenter w s) s :=
  containsStr_padCenter w s s (containsStr_self s)

theorem containsStr_strJoin (l : List String) (x : String) (hx : x ∈ l)
    (s : String) (h : containsStr x s) : containsStr (strJoin l) s := by
  induction l with
  | nil => cases hx
  | cons a rest ih =>
    rcases List.mem_cons.mp hx with rfl | hmem
    · show containsStr (x ++ strJoin rest) s
      exact containsStr_append_left _ _ _ h
    · show containsStr (a ++ strJoin rest) s
      exact containsStr_append_right _ _ _ (ih hmem)

theorem hlc_map_wrap (g : String → String)
    (hg : ∀ l s, containsStr l s → containsStr (g l) s)
    (b : Block) (s : String) (h : hasLineContaining b s) :
    hasLineContaining (b.map g) s := by
  obtain ⟨l, hl, hc⟩ := h
  exact ⟨g l, List.mem_map_of_mem g hl, hg l s hc⟩

theorem hlc_append_left (b c : Block) (s : String)
    (h : hasLineContaining b s) : hasLineContaining (b ++ c) s := by
  obtain ⟨l, hl, hc⟩ := h
  exact ⟨l, List.mem_append_left c hl, hc⟩

theorem hlc_append_right (b c : Block) (s : String)
    (h : hasLineContaining c s) : hasLineContaining (b ++ c) s := by
  obtain ⟨l, hl, hc⟩ := h
  exact ⟨l, List.mem_append_right b hl, hc⟩

theorem hlc_cons (x : String) (b : Block) (s : String)
    (h : hasLineContaining b s) : hasLineContaining (x :: b) s := by
  obtain ⟨l, hl, hc⟩ := h
  exact ⟨l, List.mem_cons_of_mem x hl, hc⟩

theorem length_le_blocksHeight (bs : List Block) (b : Block) (hb : b ∈ bs) :
    b.length ≤ blocksHeight bs := by
  induction bs with
  | nil => cases hb
  | cons a rest ih =>
    simp only [blocksHeight, List.foldr_cons]
    rcases List.mem_cons.mp hb with rfl | hmem
    · exact le_max_left _ _
    · exact le_trans (ih hmem) (le_max_right _ _)

theorem hlc_joinHorizontal (bs : List Block) (b : Block) (s : String)
    (h : hasLineContaining b s) (hb : b ∈ bs) :
    hasLineContaining (joinHorizontal bs) s := by
  obtain ⟨l, hl, hc⟩ := h
  obtain ⟨i, hi⟩ := List.mem_iff_get?.mp hl
  have hib : i < b.length := by
    by_contra hcon
    rw [List.get?_eq_none.mpr (Nat.le_of_not_lt hcon)] at hi
    cases hi
  refine ⟨strJoin (bs.map (fun b' => padRight (blockWidth b') (getLine b' i))),
    ?_, ?_⟩
  · unfold joinHorizontal
    exact List.mem_map_of_mem _
      (List.mem_range.mpr (lt_of_lt_of_le hib (length_le_blocksHeight bs b hb)))
  · refine containsStr_strJoin _ (padRight (blockWidth b) (getLine b i))
      (List.mem_map_of_mem
        (fun b' => padRight (blockWidth b') (getLine b' i)) hb) s ?_
    apply containsStr_padRight
    rw [getLine, hi]
    exact hc

theorem hlc_joinVertical (bs : List Block) (b : Block) (s : String)
    (h : hasLineContaining b s) (hb : b ∈ bs) :
    hasLineContaining (joinVertical bs) s := by
  obtain ⟨l, hl, hc⟩ := h
  unfold joinVertical
  exact ⟨padCenter (Int.ofNat (bs.foldr (fun b acc => max (blockWidth b) acc) 0)) l,
    List.mem_map_of_mem _ (List.mem_flatten.mpr ⟨b, hb, hl⟩),
    containsStr_padCenter _ _ _ hc⟩

theorem hlc_borderBox (w : Int) (b : Block) (s : String)
    (h : hasLineContaining b s) : hasLineContaining (borderBox w b) s := by
  simp only [borderBox]
  apply hlc_cons
  apply hlc_append_left
  apply hlc_map_wrap (fun l => "│" ++ padRight _ l ++ "│")
    (fun l s hc => containsStr_wrap _ _ _ _ (containsStr_padRight _ _ _ hc))
  apply hlc_map_wrap (fun l => " " ++ padRight w.toNat l ++ " ")
    (fun l s hc => containsStr_wrap _ _ _ _ (containsStr_padRight _ _ _ hc))
  apply hlc_append_left
  apply hlc_append_right
  exact h

theorem splitOnChar_ne_nil (c : Char) (l : List Char) : splitOnChar c l ≠ [] := by
  cases l with
  | nil => simp [splitOnChar]
  | cons x rest =>
    rw [splitOnChar]
    cases h : splitOnChar c rest with
    | nil => simp
    | cons hd tl => by_cases hx : x = c <;> simp [hx]

theorem joinWords_length_ge_head (word : List Char) (rest : List (List Char)) :
    word.length ≤ (joinWords (word :: rest)).length := by
  cases rest with
  | nil => simp [joinWords]
  | cons y t =>
    simp only [joinWords, List.length_append, List.length_cons]
    omega

theorem joinWords_merge (cur word : List Char) (rest : List (List Char)) :
    joinWords ((cur ++ ' ' :: word) :: rest) = joinWords (cur :: word :: rest) := by
  cases rest with
  | nil => simp [joinWords]
  | cons y t => simp [joinWords]

theorem wordWrap_foldl_fits (w : Nat) (rest : List (List Char)) :
    ∀ (done : List (List Char)) (cur : List Char),
      (joinWords (cur :: rest)).length ≤ w →
      rest.foldl (fun (acc : List (List Char) × List Char) word =>
          if acc.2.length + 1 + word.length ≤ w then (acc.1, acc.2 ++ ' ' :: word)
          else (acc.1 ++ [acc.2], word)) (done, cur) =
        (done, joinWords (cur :: rest)) := by
  induction rest with
  | nil =>
    intro done cur h
    simp [joinWords]
  | cons word rest ih =>
    intro done cur h
    rw [List.foldl_cons]
    have hgrow : (joinWords (cur :: word :: rest)).length =
        cur.length + 1 + (joinWords (word :: rest)).length := by
      simp only [joinWords, List.length_append, List.length_cons]
      omega
    have hge := joinWords_length_ge_head word rest
    have hcond : cur.length + 1 + word.length ≤ w := by omega
    rw [if_pos hcond]
    have h2 : (joinWords ((cur ++ ' ' :: word) :: rest)).length ≤ w := by
      rw [joinWords_merge]
      exact h
    rw [ih done (cur ++ ' ' :: word) h2, joinWords_merge]

theorem wordWrapCore_of_fits (w : Nat) (words : List (List Char))
    (hne : words ≠ []) (h : (joinWords words).length ≤ w) :
    wordWrapCore w words = [joinWords words] := by
  match words, hne with
  | first :: rest, _ =>
    simp only [wordWrapCore]
    rw [wordWrap_foldl_fits w rest [] first h]
    rfl

theorem chunkChars_of_fits (w : Nat) (l : List Char) (hne : l ≠ [])
    (hlen : l.length ≤ max w 1) : chunkChars w l = [l] := by
  match l, hne with
  | x :: rest, _ =>
    show chunkCharsGo w (x :: rest) (rest.length + 1) = [x :: rest]
    rw [chunkCharsGo]
    rw [List.take_of_length_le hlen, List.drop_eq_nil_of_le hlen]
    simp [chunkCharsGo]

theorem wrapText_of_fits (w : Nat) (text : String)
    (hjoin : joinWords (splitWords text.data) = text.data)
    (hne : text.data ≠ []) (hlen : text.data.length ≤ w) (hw : 1 ≤ w) :
    wrapText w text = [text] := by
  unfold wrapText
  rw [wordWrapCore_of_fits w (splitWords text.data)
    (splitOnChar_ne_nil ' ' text.data) (by rw [hjoin]; exact hlen)]
  rw [hjoin]
  rw [List.map_cons, List.map_nil, chunkChars_of_fits w text.data hne (by omega)]
  rfl

theorem hlc_renderCentered_of_fits (w : Int) (text : String) (hw : 0 < w)
    (hwrap : wrapText w.toNat text = [text]) :
    hasLineContaining (renderCentered w text) text := by
  unfold renderCentered
  rw [if_pos hw, hwrap]
  exact ⟨padCenter w text, by simp, padCenter_contains_self w text⟩

theorem hlc_renderColorBox_fits (color label : String) (bw : Int)
    (h14 : (14:Int) ≤ bw)
    (hjoin : joinWords (splitWords label.data) = label.data)
    (hne : label.data ≠ []) (hlen : label.data.length ≤ 14) :
    hasLineContaining (renderColorBox color label bw) label := by
  have hw : (0:Int) < bw := by omega
  have h1 : 1 ≤ bw.toNat := by omega
  have hlw : label.data.length ≤ bw.toNat := by omega
  unfold renderColorBox
  exact hlc_append_right _ _ _
    (hlc_renderCentered_of_fits bw label hw
      (wrapText_of_fits bw.toNat label hjoin hne hlw h1))

theorem chunksOf4Go_flatten : ∀ (fuel : Nat) (l : List α), l.length ≤ fuel →
    (chunksOf4Go fuel l).flatten = l
  | fuel, [], _ => by cases fuel <;> simp [chunksOf4Go]
  | 0, x :: rest, h => by simp at h
  | fuel + 1, x :: rest, h => by
    rw [chunksOf4Go]
    simp only [List.flatten_cons]
    rw [chunksOf4Go_flatten fuel ((x :: rest).drop 4)
      (by simp only [List.length_drop, List.length_cons] at h ⊢; omega)]
    exact List.take_append_drop 4 (x :: rest)

theorem chunksOf4_flatten (l : List α) : (chunksOf4 l).flatten = l :=
  chunksOf4Go_flatten l.length l (Nat.le_refl _)

theorem hlc_renderColorGroup_of_box (colors : List (String × String))
    (title : String) (cw bw : Int) (c : String × String) (hc : c ∈ colors)
    (hbox : hasLineContaining (renderColorBox c.1 c.2 bw) c.2) :
    hasLineContaining (renderColorGroup colors title cw bw) c.2 := by
  simp only [renderColorGroup]
  apply hlc_borderBox
  have hcf : c ∈ (chunksOf4 colors).flatten := by
    rw [chunksOf4_flatten]
    exact hc
  obtain ⟨chunk, hchunk, hcmem⟩ := List.mem_flatten.mp hcf
  refine hlc_joinVertical _
    (joinHorizontal (chunk.map (fun c => renderColorBox c.1 c.2 bw))) _ ?_
    (List.mem_map_of_mem
      (fun cs => joinHorizontal (cs.map (fun c => renderColorBox c.1 c.2 bw)))
      hchunk)
  exact hlc_joinHorizontal _ (renderColorBox c.1 c.2 bw) _ hbox
    (List.mem_map_of_mem (fun c => renderColorBox c.1 c.2 bw) hcmem)

theorem hlc_previewBgfg_background (scheme : ColorScheme) (cw bw : Int)
    (h14 : (14:Int) ≤ bw) :
    hasLineContaining (previewBgfg scheme cw bw) "Background" := by
  unfold previewBgfg
  apply hlc_borderBox
  exact hlc_joinHorizontal _ _ _
    (hlc_renderColorBox_fits scheme.colors.primary.background "Background" bw
      h14 rfl (by decide) (by decide))
    (by simp)

theorem hlc_previewBgfg_foreground (scheme : ColorScheme) (cw bw : Int)
    (h14 : (14:Int) ≤ bw) :
    hasLineContaining (previewBgfg scheme cw bw) "Foreground" := by
  unfold previewBgfg
  apply hlc_borderBox
  exact hlc_joinHorizontal _ _ _
    (hlc_renderColorBox_fits scheme.colors.primary.foreground "Foreground" bw
      h14 rfl (by decide) (by decide))
    (by simp)

theorem containsStr_blockToString : ∀ (b : Block) (s : String),
    hasLineContaining b s → containsStr (blockToString b) s
  | [], s, h => by
    obtain ⟨l, hl, _⟩ := h
    cases hl
  | [x], s, h => by
    obtain ⟨l, hl, hc⟩ := h
    have hx : l = x := by simpa using hl
    subst hx
    simpa [blockToString] using hc
  | x :: y :: rest, s, h => by
    obtain ⟨l, hl, hc⟩ := h
    rcases List.mem_cons.mp hl with rfl | hmem
    · show containsStr (l ++ "\n" ++ blockToString (y :: rest)) s
      exact containsStr_append_left _ _ _ (containsStr_append_left _ _ _ hc)
    · show containsStr (x ++ "\n" ++ blockToString (y :: rest)) s
      exact containsStr_append_right _ _ _
        (containsStr_blockToString (y :: rest) s ⟨l, hmem, hc⟩)

theorem hlc_previewList (scheme : ColorScheme) (cw bw : Int)
    (h14 : (14:Int) ≤ bw) (label : String) (hl : label ∈ previewLabels) :
    hasLineContaining (joinVertical
      [renderTitle cw "Theme Preview",
       [""],
       renderTitle cw "Background/Foreground Colors",
       previewBgfg scheme cw bw,
       [""],
       renderTitle cw "Normal Colors",
       renderColorGroup (normalColorPairs scheme) "Normal Colors" cw bw,
       [""],
       renderTitle cw "Bright Colors",
       renderColorGroup (brightColorPairs scheme) "Bright Colors" cw bw])
      label := by
  simp only [previewLabels] at hl
  fin_cases hl
  · exact hlc_joinVertical _ _ _ (hlc_previewBgfg_background scheme cw bw h14) (by simp)
  · exact hlc_joinVertical _ _ _ (hlc_previewBgfg_foreground scheme cw bw h14) (by simp)
  · exact hlc_joinVertical _ _ _ (hlc_renderColorGroup_of_box
      (normalColorPairs scheme) "Normal Colors" cw bw
      (scheme.colors.normal.black, "Black")
      (by simp [normalColorPairs])
      (hlc_renderColorBox_fits _ "Black" bw h14 rfl (by decide) (by decide))) (by simp)
  · exact hlc_joinVertical _ _ _ (hlc_renderColorGroup_of_box
      (normalColorPairs scheme) "Normal Colors" cw bw
      (scheme.colors.normal.red, "Red")
      (by simp [normalColorPairs])
      (hlc_renderColorBox_fits _ "Red" bw h14 rfl (by decide) (by decide))) (by simp)
  · exact hlc_joinVertical _ _ _ (hlc_renderColorGroup_of_box
      (normalColorPairs scheme) "Normal Colors" cw bw
      (scheme.colors.normal.green, "Green")
      (by simp [normalColorPairs])
      (hlc_renderColorBox_fits _ "Green" bw h14 rfl (by decide) (by decide))) (by simp)
  · exact hlc_joinVertical _ _ _ (hlc_renderColorGroup_of_box
      (normalColorPairs scheme) "Normal Colors" cw bw
      (scheme.colors.normal.yellow, "Yellow")
      (by simp [normalColorPairs])
      (hlc_renderColorBox_fits _ "Yellow" bw h14 rfl (by decide) (by decide))) (by simp)
  · exact hlc_joinVertical _ _ _ (hlc_renderColorGroup_of_box
      (normalColorPairs scheme) "Normal Colors" cw bw
      (scheme.colors.normal.blue, "Blue")
      (by simp [normalColorPairs])
      (hlc_renderColorBox_fits _ "Blue" bw h14 rfl (by decide) (by decide))) (by simp)
  · exact hlc_joinVertical _ _ _ (hlc_renderColorGroup_of_box
      (normalColorPairs scheme) "Normal Colors" cw bw
      (scheme.colors.normal.magenta, "Magenta")
      (by simp [normalColorPairs])
      (hlc_renderColorBox_fits _ "Magenta" bw h14 rfl (by decide) (by decide))) (by simp)
  · exact hlc_joinVertical _ _ _ (hlc_renderColorGroup_of_box
      (normalColorPairs scheme) "Normal Colors" cw bw
      (scheme.colors.normal.cyan, "Cyan")
      (by simp [normalColorPairs])
      (hlc_renderColorBox_fits _ "Cyan" bw h14 rfl (by decide) (by decide))) (by simp)
  · exact hlc_joinVertical _ _ _ (hlc_renderColorGroup_of_box
      (normalColorPairs scheme) "Normal Colors" cw bw
      (scheme.colors.normal.white, "White")
      (by simp [normalColorPairs])
      (hlc_renderColorBox_fits _ "White" bw h14 rfl (by decide) (by decide))) (by simp)
  · exact hlc_joinVertical _ _ _ (hlc_renderColorGroup_of_box
      (brightColorPairs scheme) "Bright Colors" cw bw
      (scheme.colors.bright.black, "Bright Black")
      (by simp [brightColorPairs])
      (hlc_renderColorBox_fits _ "Bright Black" bw h14 rfl (by decide) (by decide))) (by simp)
  · exact hlc_joinVertical _ _ _ (hlc_renderColorGroup_of_box
      (brightColorPairs scheme) "Bright Colors" cw bw
      (scheme.colors.bright.red, "Bright Red")
      (by simp [brightColorPairs])
      (hlc_renderColorBox_fits _ "Bright Red" bw h14 rfl (by decide) (by decide))) (by simp)
  · exact hlc_joinVertical _ _ _ (hlc_renderColorGroup_of_box
      (brightColorPairs scheme) "Bright Colors" cw bw
      (scheme.colors.bright.green, "Bright Green")
      (by simp [brightColorPairs])
      (hlc_renderColorBox_fits _ "Bright Green" bw h14 rfl (by decide) (by decide))) (by simp)
  · exact hlc_joinVertical _ _ _ (hlc_renderColorGroup_of_box
      (brightColorPairs scheme) "Bright Colors" cw bw
      (scheme.colors.bright.yellow, "Bright Yellow")
      (by simp [brightColorPairs])
      (hlc_renderColorBox_fits _ "Bright Yellow" bw h14 rfl (by decide) (by decide))) (by simp)
  · exact hlc_joinVertical _ _ _ (hlc_renderColorGroup_of_box
      (brightColorPairs scheme) "Bright Colors" cw bw
      (scheme.colors.bright.blue, "Bright Blue")
      (by simp [brightColorPairs])
      (hlc_renderColorBox_fits _ "Bright Blue" bw h14 rfl (by decide) (by decide))) (by simp)
  · exact hlc_joinVertical _ _ _ (hlc_renderColorGroup_of_box
      (brightColorPairs scheme) "Bright Colors" cw bw
      (scheme.colors.bright.magenta, "Bright Magenta")
      (by simp [brightColorPairs])
      (hlc_renderColorBox_fits _ "Bright Magenta" bw h14 rfl (by decide) (by decide))) (by simp)
  · exact hlc_joinVertical _ _ _ (hlc_renderColorGroup_of_box
      (brightColorPairs scheme) "Bright Colors" cw bw
      (scheme.colors.bright.cyan, "Bright Cyan")
      (by simp [brightColorPairs])
      (hlc_renderColorBox_fits _ "Bright Cyan" bw h14 rfl (by decide) (by decide))) (by simp)
  · exact hlc_joinVertical _ _ _ (hlc_renderColorGroup_of_box
      (brightColorPairs scheme) "Bright Colors" cw bw
      (scheme.colors.bright.white, "Bright White")
      (by simp [brightColorPairs])
      (hlc_renderColorBox_fits _ "Bright White" bw h14 rfl (by decide) (by decide))) (by simp)

theorem renderPreviewBlock_labels (scheme : ColorScheme) (w : Int)
    (h14 : (14:Int) ≤ Int.tdiv (w - 4 - (4 - 1) * 2) 4)
    (label : String) (hl : label ∈ previewLabels) :
    hasLineContaining (renderPreviewBlock scheme w) label := by
  simp only [renderPreviewBlock]
  exact hlc_previewList scheme _ _ h14 label hl

/-- C9 (amended): the preview renderer is a total function of content and
width and never aborts: if the content fails to parse as a `ColorScheme`
it returns the visible error-message string, and on content that parses —
in particular content with all 18 color fields present — it returns the
rendered preview, which contains all 18 color labels at every viewport
width whose computed box width `(w - 4 - 6) tdiv 4` is at least 14
columns, the longest label.  At smaller widths the external renderer
wraps over-wide labels across lines (see the counterexample at width
40). -/
theorem renderColorPreview_spec (content : String) (w : Int) :
    (∀ e, parseColorScheme content = Except.error e →
      renderColorPreview content w = "Error parsing theme: " ++ e)
    ∧ (∀ scheme, parseColorScheme content = Except.ok scheme →
        (14:Int) ≤ Int.tdiv (w - 4 - (4 - 1) * 2) 4 →
        ∀ label, label ∈ previewLabels →
          containsStr (renderColorPreview content w) label) := by
  constructor
  · intro e he
    simp [renderColorPreview, he]
  · intro scheme hs h14 label hl
    have hrw : renderColorPreview content w =
        blockToString (renderPreviewBlock scheme w) := by
      simp [renderColorPreview, hs]
    rw [hrw]
    exact containsStr_blockToString _ _
      (renderPreviewBlock_labels scheme w h14 label hl)

theorem renderColorPreview_spec_witness :
    containsStr (renderColorPreview sampleTheme 80) "Bright Magenta" :=
  (renderColorPreview_spec sampleTheme 80).2 sampleScheme rfl (by decide)
    "Bright Magenta" (by simp [previewLabels])

theorem hasInfixB_iff (sub l : List Char) :
    hasInfixB sub l = true ↔ sub <:+: l := by
  induction l with
  | nil =>
    simp only [hasInfixB, List.isEmpty_iff]
    exact ⟨fun h => h ▸ List.infix_refl [], fun h => List.eq_nil_of_infix_nil h⟩
  | cons x rest ih =>
    simp [hasInfixB, List.infix_cons_iff, List.isPrefixOf_iff_prefix, ih]

/-- C9 counterexample: at viewport width 40 the computed box width is 7,
so the external renderer word-wraps "Bright Magenta" onto two lines
("Bright" / "Magenta"); the output of the preview for a theme with all 18
color fields present does not contain that label contiguously, refuting
label containment at every width. -/
theorem renderColorPreview_wraps_label :
    parseColorScheme sampleTheme = Except.ok sampleScheme
      ∧ ¬ containsStr (renderColorPreview sampleTheme 40) "Bright Magenta" := by
  refine ⟨rfl, fun hcon => ?_⟩
  have hb : hasInfixB ("Bright Magenta").data
      (renderColorPreview sampleTheme 40).data = true :=
    (hasInfixB_iff _ _).mpr hcon
  have hf : hasInfixB ("Bright Magenta").data
      (renderColorPreview sampleTheme 40).data = false := rfl
  rw [hf] at hb
  cases hb

theorem selection_debounce_witness :
    handleSelection (fun _ => Except.ok "t")
        { initialModel "/themes" with
            items := [⟨"a.toml", "/themes/a.toml", false⟩] } =
      ({ initialModel "/themes" with
          items := [⟨"a.toml", "/themes/a.toml", false⟩],
          lastSelected := 0,
          viewportContent := renderColorPreview "t" 0 },
        some (TeaCmd.patchTheme "/themes/a.toml")) :=
  (selection_debounce (fun _ => Except.ok "t")
      { initialModel "/themes" with
          items := [⟨"a.toml", "/themes/a.toml", false⟩] }).2.2 rfl
    ⟨"a.toml", "/themes/a.toml", false⟩ "t" rfl rfl rfl rfl
